import Mathlib

/-!
Verification development for the solana-web3.js codec and confirmation subsystems.

The definitions below are a shallow embedding of the TypeScript sources:
  - packages/codecs-data-structures/src/bit-array.ts
  - packages/codecs-data-structures/src/bytes.ts
  - packages/codecs-data-structures/src/array.ts (including the hidden-suffix codec)
  - the polling confirmation strategies (block-height exceedance and
    recent-signature confirmation)

Byte buffers (`Uint8Array`) are modelled as `List Nat`; each write truncates the
stored value modulo 256, exactly as `Uint8Array` storage does.  Fallible
operations (codec assertions) are modelled with `Except`.
-/

namespace SolanaWeb3

/-- Errors thrown by the codec layer.  Mirrors the error codes in
packages/errors/src/codes.ts that the modelled codecs can raise:
`SOLANA_ERROR__CODECS__INVALID_NUMBER_OF_ITEMS`,
`SOLANA_ERROR__CODECS__ENOUGH_BYTES` (not-enough-bytes, carrying codec name,
expected size, available size and offset, per spec section 4.1) and
`SOLANA_ERROR__CODECS__INVALID_CONSTANT`. -/
inductive CodecError where
  | invalidNumberOfItems (codecName : String) (expected actual : Nat)
  | notEnoughBytes (codecName : String) (expected bytesLength offset : Nat)
  | invalidConstant (constant : List Nat) (offset : Nat)
deriving DecidableEq, Repr

/-- Model of `Uint8Array.prototype.set(vals, offset)`: overwrite the buffer
starting at `offset` with `vals`, truncating each value modulo 256 the way
`Uint8Array` element stores do.  (In the embedding every caller writes within
bounds, as the JS sources do on the exact-size buffers `encode` allocates.) -/
def setAt (buf : List Nat) (offset : Nat) (vals : List Nat) : List Nat :=
  buf.take offset ++ vals.map (· % 256) ++ buf.drop (offset + vals.length)

/-- Size metadata of an encoder: either `fixedSize` (a byte count independent of
the value) or `getSizeFromValue` (value-dependent), as in `@solana/codecs-core`.
`maxSize` is metadata-only in the sources and plays no role in any behaviour
modelled here, so it is omitted. -/
inductive EncoderSize (α : Type) where
  | fixedSize (n : Nat)
  | variableSize (getSizeFromValue : α → Nat)

/-- An encoder, as produced by `createEncoder`: size metadata plus a `write`
function.  The TS `write(value, bytes, offset)` mutates `bytes` and returns the
new offset; the pure model returns the updated buffer together with the new
offset, and surfaces thrown codec errors through `Except`. -/
structure Encoder (α : Type) where
  size : EncoderSize α
  write : α → List Nat → Nat → Except CodecError (List Nat × Nat)

/-- Model of `getEncodedSize(value, encoder)` from `@solana/codecs-core`:
`encoder.fixedSize` when present, otherwise `getSizeFromValue(value)`. -/
def getEncodedSize (value : α) (e : Encoder α) : Nat :=
  match e.size with
  | .fixedSize n => n
  | .variableSize f => f value

/-- Model of the `encode` method `createEncoder` derives from `write`: allocate
a zero-filled buffer of the encoded size, write the value at offset 0, and
return the buffer. -/
def Encoder.encode (e : Encoder α) (value : α) : Except CodecError (List Nat) := do
  let bytes := List.replicate (getEncodedSize value e) 0
  let (bytes, _) ← e.write value bytes 0
  pure bytes

/-- A decoder, as produced by `createDecoder`: optional fixed-size metadata plus
a `read` function returning the decoded value and the new offset. -/
structure Decoder (α : Type) where
  fixedSize : Option Nat
  read : List Nat → Nat → Except CodecError (α × Nat)

/-- Model of the `decode` method `createDecoder` derives from `read`:
`decode(bytes, offset = 0)` returns just the value. -/
def Decoder.decode (d : Decoder α) (bytes : List Nat) : Except CodecError α :=
  (d.read bytes 0).map Prod.fst

/-- Modelled from the spec: `assertByteArrayHasEnoughBytesForCodec` from
`@solana/codecs-core` is not under src/.  Per spec section 4.1, decoding with
insufficient remaining bytes signals a not-enough-bytes error carrying the
codec name, expected size, available size and offset. -/
def assertByteArrayHasEnoughBytesForCodec (codecName : String) (expected : Nat)
    (bytes : List Nat) (offset : Nat) : Except CodecError Unit :=
  if bytes.length - offset < expected then
    .error (.notEnoughBytes codecName expected (bytes.length - offset) offset)
  else
    .ok ()

/-- Modelled from the spec: `assertValidNumberOfItemsForCodec` from
codecs-data-structures/src/assertions.ts is not under src/.  Per spec section
4.2, the array encoder asserts `actual length == declared size` before writing,
raising the array-length error (`SOLANA_ERROR__CODECS__INVALID_NUMBER_OF_ITEMS`)
on mismatch. -/
def assertValidNumberOfItemsForCodec (codecName : String) (expected actual : Nat) :
    Except CodecError Unit :=
  if actual ≠ expected then .error (.invalidNumberOfItems codecName expected actual)
  else .ok ()

/-! ## Bit-array codec (bit-array.ts) -/

/-- Configuration of the bit-array codecs.  The TS sources also accept a bare
boolean as shorthand for `{ backward }`; the parsed form is this record with an
optional `backward` flag defaulting to `false`. -/
structure BitArrayCodecConfig where
  backward : Option Bool := none
deriving DecidableEq, Repr

/-- The byte assembled by the encoder's inner loop for group `i`:
`byte |= Number(value[i * 8 + j] ?? 0) << (backward ? j : 7 - j)` over
`j = 0 .. 7`. -/
def bitArrayByte (backward : Bool) (value : List Bool) (i : Nat) : Nat :=
  (List.range 8).foldl
    (fun byte j =>
      byte |||
        ((if value.getD (i * 8 + j) false then 1 else 0) <<< (if backward then j else 7 - j)))
    0

/-- The `bytesToAdd` list assembled by the encoder's outer loop: one byte per
group `i = 0 .. size - 1`, appended with `push` in the forward case and
prepended with `unshift` in the backward case. -/
def bitArrayBytesToAdd (size : Nat) (backward : Bool) (value : List Bool) : List Nat :=
  (List.range size).foldl
    (fun acc i =>
      if backward then bitArrayByte backward value i :: acc
      else acc ++ [bitArrayByte backward value i])
    []

/-- Embedding of `getBitArrayEncoder(size, config)`: a fixed-size encoder whose
`write` assembles `bytesToAdd`, sets it into the buffer at `offset`, and
returns `size` (the source returns `size`, not `offset + size`). -/
def getBitArrayEncoder (size : Nat) (config : BitArrayCodecConfig) : Encoder (List Bool) :=
  let backward := config.backward.getD false
  { size := .fixedSize size
    write := fun value bytes offset =>
      .ok (setAt bytes offset (bitArrayBytesToAdd size backward value), size) }

/-- The booleans the decoder's inner loop pushes for one byte: forward it tests
`byte & 0b1000_0000` then shifts left; backward it tests `byte & 1` then shifts
right. -/
def bitArrayBitsOfByte (backward : Bool) (byte : Nat) : List Bool :=
  ((List.range 8).foldl
    (fun (acc : List Bool × Nat) _ =>
      if backward then (acc.1 ++ [decide (acc.2 &&& 1 ≠ 0)], acc.2 >>> 1)
      else (acc.1 ++ [decide (acc.2 &&& 0b10000000 ≠ 0)], acc.2 <<< 1))
    ([], byte)).1

/-- Embedding of `getBitArrayDecoder(size, config)`: assert `size` bytes remain,
slice `size` bytes at `offset` (reversed when backward), expand each byte into
8 booleans, and return them with offset advanced by `size`. -/
def getBitArrayDecoder (size : Nat) (config : BitArrayCodecConfig) : Decoder (List Bool) :=
  let backward := config.backward.getD false
  { fixedSize := some size
    read := fun bytes offset => do
      let _ ← assertByteArrayHasEnoughBytesForCodec "bitArray" size bytes offset
      let slice := (bytes.drop offset).take size
      let slice := if backward then slice.reverse else slice
      .ok (slice.foldl (fun acc byte => acc ++ bitArrayBitsOfByte backward byte) [],
           offset + size) }

/-! ## Bytes codec (bytes.ts) -/

/-- Embedding of `getBytesEncoder()`: a variable-size encoder whose size is the
input's length and whose `write` sets the raw bytes at the offset and returns
`offset + value.length`. -/
def getBytesEncoder : Encoder (List Nat) :=
  { size := .variableSize fun value => value.length
    write := fun value bytes offset =>
      .ok (setAt bytes offset value, offset + value.length) }

/-- Embedding of `getBytesDecoder()`: `read` slices all remaining bytes from
the offset to the end of the buffer and returns `offset + slice.length`. -/
def getBytesDecoder : Decoder (List Nat) :=
  { fixedSize := none
    read := fun bytes offset =>
      let slice := bytes.drop offset
      .ok (slice, offset + slice.length) }

/-! ## Number codecs used by the array codec

The `@solana/codecs-numbers` package is not under src/, so the `u8` and `u32`
codecs the examples and the default array size prefix rely on are modelled from
the spec. -/

/-- Modelled from the spec: `getU8Encoder` from `@solana/codecs-numbers` (not
under src/) — a fixed-size one-byte encoder storing the value as an unsigned
byte. -/
def getU8Encoder : Encoder Nat :=
  { size := .fixedSize 1
    write := fun value bytes offset => .ok (setAt bytes offset [value], offset + 1) }

/-- Modelled from the spec: `getU8Decoder` from `@solana/codecs-numbers` (not
under src/) — reads one unsigned byte, failing with the not-enough-bytes error
when no byte remains. -/
def getU8Decoder : Decoder Nat :=
  { fixedSize := some 1
    read := fun bytes offset => do
      let _ ← assertByteArrayHasEnoughBytesForCodec "u8" 1 bytes offset
      .ok (bytes.getD offset 0, offset + 1) }

/-- Modelled from the spec: `getU32Encoder` from `@solana/codecs-numbers` (not
under src/) — a fixed-size encoder storing the value as a 4-byte unsigned
little-endian integer (the default array size prefix per spec section 4.2). -/
def getU32Encoder : Encoder Nat :=
  { size := .fixedSize 4
    write := fun value bytes offset =>
      .ok (setAt bytes offset
            [value % 256, value / 256 % 256, value / 65536 % 256, value / 16777216 % 256],
           offset + 4) }

/-- Modelled from the spec: `getU32Decoder` from `@solana/codecs-numbers` (not
under src/) — reads a 4-byte unsigned little-endian integer, failing with the
not-enough-bytes error when fewer than 4 bytes remain. -/
def getU32Decoder : Decoder Nat :=
  { fixedSize := some 4
    read := fun bytes offset => do
      let _ ← assertByteArrayHasEnoughBytesForCodec "u32" 4 bytes offset
      .ok (bytes.getD offset 0 + bytes.getD (offset + 1) 0 * 256 +
             bytes.getD (offset + 2) 0 * 65536 + bytes.getD (offset + 3) 0 * 16777216,
           offset + 4) }

/-! ## Array codec (array.ts) -/

/-- The `ArrayLikeCodecSize` union: a nested number codec used as a count
prefix, a literal number of items, or the string literal `'remainder'`. -/
inductive ArrayLikeCodecSize (π : Type) where
  | prefixed (p : π)
  | fixedCount (n : Nat)
  | remainder

/-- Configuration of the array codecs: an optional size strategy (the source
default, a `u32` prefix, is applied by `getArrayEncoder`/`getArrayDecoder`). -/
structure ArrayCodecConfig (π : Type) where
  size : Option (ArrayLikeCodecSize π) := none

/-- Model of `getFixedSize(codec)` from codecs-data-structures/src/utils.ts
(not under src/, a one-line accessor): the encoder's `fixedSize` when it is
fixed-size, `null` otherwise. -/
def getFixedSize (e : Encoder α) : Option Nat :=
  match e.size with
  | .fixedSize n => some n
  | .variableSize _ => none

/-- Embedding of `computeArrayLikeCodecSize(size, itemSize)`: `null` unless the
strategy is a literal number; `0` for a literal zero; `itemSize * size` when
the item size is fixed, `null` otherwise. -/
def computeArrayLikeCodecSize : ArrayLikeCodecSize π → Option Nat → Option Nat
  | .prefixed _, _ => none
  | .remainder, _ => none
  | .fixedCount n, itemSize =>
    if n = 0 then some 0
    else
      match itemSize with
      | none => none
      | some is => some (is * n)

/-- Embedding of `getArrayEncoder(item, config)`.  The size metadata follows
`computeArrayLikeCodecSize`; `write` asserts the item count for a literal
numeric size, writes the count prefix for a nested number codec, then writes
each item in order, threading the offset. -/
def getArrayEncoder (item : Encoder α) (config : ArrayCodecConfig (Encoder Nat)) :
    Encoder (List α) :=
  let size := config.size.getD (.prefixed getU32Encoder)
  let fixedSize := computeArrayLikeCodecSize size (getFixedSize item)
  { size :=
      match fixedSize with
      | some n => .fixedSize n
      | none => .variableSize fun array =>
          (match size with
           | .prefixed p => getEncodedSize array.length p
           | _ => 0) +
            (array.map (fun value => getEncodedSize value item)).sum
    write := fun array bytes offset => do
      let _ ← match size with
        | .fixedCount n => assertValidNumberOfItemsForCodec "array" n array.length
        | _ => .ok ()
      let (bytes, offset) ← match size with
        | .prefixed p => p.write array.length bytes offset
        | _ => .ok (bytes, offset)
      array.foldlM (fun (acc : List Nat × Nat) value => item.write value acc.1 acc.2)
        (bytes, offset) }

/-- The item-reading loop of `getArrayDecoder` for a resolved item count: read
`count` items in order, threading the offset. -/
def readCountItems (item : Decoder α) : Nat → List Nat → Nat →
    Except CodecError (List α × Nat)
  | 0, _, offset => .ok ([], offset)
  | count + 1, bytes, offset => do
    let (value, offset) ← item.read bytes offset
    let (values, offset) ← readCountItems item count bytes offset
    .ok (value :: values, offset)

/-- The `'remainder'` reading loop of `getArrayDecoder`: read items while the
offset is strictly below the byte length.  `fuel` bounds the recursion; the
source's `while` loop iterates at most `bytes.length - offset` times whenever
each item read advances the offset (as every byte-consuming decoder does), so
callers pass `bytes.length` and the bound is never hit on the modelled
decoders.  An item decoder that failed to advance would loop forever in the
source. -/
def readRemainderItems (item : Decoder α) : Nat → List Nat → Nat →
    Except CodecError (List α × Nat)
  | 0, _, offset => .ok ([], offset)
  | fuel + 1, bytes, offset =>
    if offset < bytes.length then do
      let (value, newOffset) ← item.read bytes offset
      let (values, finalOffset) ← readRemainderItems item fuel bytes newOffset
      .ok (value :: values, finalOffset)
    else .ok ([], offset)

/-- Embedding of `getArrayDecoder(item, config)`.  For a nested number-codec
size with no remaining bytes it returns the empty array at the unchanged
offset; for `'remainder'` it reads until the buffer is exhausted; otherwise it
resolves the count (a literal number, or by reading the prefix) and reads that
many items. -/
def getArrayDecoder (item : Decoder α) (config : ArrayCodecConfig (Decoder Nat)) :
    Decoder (List α) :=
  let size := config.size.getD (.prefixed getU32Decoder)
  { fixedSize := computeArrayLikeCodecSize size item.fixedSize
    read := fun bytes offset =>
      match size with
      | .prefixed p =>
        if (bytes.drop offset).length = 0 then .ok ([], offset)
        else do
          let (resolvedSize, offset) ← p.read bytes offset
          readCountItems item resolvedSize bytes offset
      | .remainder => readRemainderItems item bytes.length bytes offset
      | .fixedCount n => readCountItems item n bytes offset }

/-! ## Hidden-suffix codec (hidden-suffix.ts)

The source implements `getHiddenSuffixEncoder`/`getHiddenSuffixDecoder` as a
tuple composition: a tuple codec of `[mainCodec, ...suffixCodecs]` whose
encode input is transformed from `T` to `[T, undefined, ...]` and whose decode
output is projected to the first element.  `getTupleEncoder`, `getTupleDecoder`
and `transformEncoder`/`transformDecoder` are not under src/, so the
composition they produce is modelled from the spec (section 4.2): encode the
main value, then each suffix in order; decode the main value, then consume
(and discard) each suffix. -/

/-- The combined total of a list of void-encoder sizes: `some` of the sum when
every suffix encoder is fixed-size, `none` otherwise (the tuple codec is fixed
only if every component is). -/
def suffixesFixedSize : List (Encoder Unit) → Option Nat
  | [] => some 0
  | e :: rest =>
    match getFixedSize e, suffixesFixedSize rest with
    | some n, some m => some (n + m)
    | _, _ => none

/-- Modelled from the spec: `getHiddenSuffixEncoder(encoder, suffixedEncoders)`
writes the main value, then each hidden suffix in order; it is fixed-size
exactly when the main encoder and every suffix encoder are. -/
def getHiddenSuffixEncoder (encoder : Encoder α) (suffixedEncoders : List (Encoder Unit)) :
    Encoder α :=
  { size :=
      match getFixedSize encoder, suffixesFixedSize suffixedEncoders with
      | some n, some m => .fixedSize (n + m)
      | _, _ => .variableSize fun value =>
          getEncodedSize value encoder +
            (suffixedEncoders.map (fun s => getEncodedSize () s)).sum
    write := fun value bytes offset => do
      let (bytes, offset) ← encoder.write value bytes offset
      suffixedEncoders.foldlM (fun (acc : List Nat × Nat) s => s.write () acc.1 acc.2)
        (bytes, offset) }

/-- The combined total of a list of void-decoder sizes. -/
def suffixDecodersFixedSize : List (Decoder Unit) → Option Nat
  | [] => some 0
  | d :: rest =>
    match d.fixedSize, suffixDecodersFixedSize rest with
    | some n, some m => some (n + m)
    | _, _ => none

/-- Modelled from the spec: `getHiddenSuffixDecoder(decoder, suffixedDecoders)`
reads the main value, then consumes and discards each hidden suffix in order,
returning only the main value. -/
def getHiddenSuffixDecoder (decoder : Decoder α) (suffixedDecoders : List (Decoder Unit)) :
    Decoder α :=
  { fixedSize :=
      match decoder.fixedSize, suffixDecodersFixedSize suffixedDecoders with
      | some n, some m => some (n + m)
      | _, _ => none
    read := fun bytes offset => do
      let (value, offset) ← decoder.read bytes offset
      let (_, offset) ← suffixedDecoders.foldlM
        (fun (acc : Unit × Nat) d => d.read bytes acc.2) ((), offset)
      .ok (value, offset) }

/-- Modelled from the spec: `getConstantEncoder(constant)` from
`@solana/codecs-data-structures` (not under src/) — a void encoder writing a
fixed byte sequence, used in the source's hidden-suffix examples. -/
def getConstantEncoder (constant : List Nat) : Encoder Unit :=
  { size := .fixedSize constant.length
    write := fun _ bytes offset =>
      .ok (setAt bytes offset constant, offset + constant.length) }

/-- Modelled from the spec: `getConstantDecoder(constant)` — a void decoder
that checks the next bytes equal the constant (raising the invalid-constant
error otherwise) and skips them. -/
def getConstantDecoder (constant : List Nat) : Decoder Unit :=
  { fixedSize := some constant.length
    read := fun bytes offset =>
      if (bytes.drop offset).take constant.length = constant then
        .ok ((), offset + constant.length)
      else .error (.invalidConstant constant offset) }

/-- Composition used to state round-trip laws: encode the value, then decode
the resulting bytes from offset 0. -/
def decodeEncoded (e : Encoder α) (d : Decoder β) (v : α) : Except CodecError β :=
  (e.encode v).bind d.decode

/-! ## Polling confirmation strategies

The two polling loops (confirmation-strategy-blockheight-polling and
confirmation-strategy-recent-signature-polling) are event-loop driven; the
embedding interprets each loop against a list of environment events delivered
at its successive await points.  An `abortFires` event means the caller's abort
signal fires while the loop is awaiting (either an in-flight fetch via
`getAbortablePromise`, or the sleep race — both paths reject with an abort
error and run the same `finally` teardown).  A response event means the awaited
fetch settles with that value; consecutive responses are separated by one
completed sleep of `pollingInterval` milliseconds (the `safeRace` of the timer
against the abort listener, won by the timer).  When the event list is
exhausted the promise is still pending: it has not settled and the `finally`
block has not run.

Each run records, besides the settlement:
  - the requests issued (one per fetch, carrying the configured
    commitment / the polled signature);
  - the durations of the completed sleeps;
  - whether the `handleAbort` listener registered on the caller's signal at
    entry is still registered (it is added with
    `{ signal: abortController.signal }` and explicitly removed in the
    `finally`, so removal is idempotent: the explicit removal and the
    auto-removal when the internal controller aborts cannot double-free);
  - whether the internal `AbortController` is still live (not yet aborted);
  - how many of the anonymous abort listeners that each sleep race adds to the
    caller's signal (`new Promise((_, reject) => callerAbortSignal
    .addEventListener('abort', ...))`) are still registered — the source never
    removes these, so one remains per completed sleep. -/

/-- A raw transaction-level error payload as reported by the RPC
(`TransactionError` from `@solana/rpc-types`), abstracted to an opaque
string. -/
abbrev TransactionError := String

/-- Modelled from the spec: the structured error factory
(`getSolanaErrorFromTransactionError` from `@solana/errors`, not under src/)
converts a raw transaction-level error payload into a throwable structured
error value. -/
inductive SolanaTransactionError where
  | fromTransactionError (cause : TransactionError)
deriving DecidableEq, Repr

/-- Modelled from the spec: the structured error carries the raw payload it was
translated from. -/
def getSolanaErrorFromTransactionError (e : TransactionError) : SolanaTransactionError :=
  .fromTransactionError e

/-- Commitment levels, ordered `processed < confirmed < finalized`. -/
inductive Commitment where
  | processed
  | confirmed
  | finalized
deriving DecidableEq, Repr

/-- The rank of a commitment in the ordering `processed < confirmed <
finalized`. -/
def commitmentRank : Commitment → Nat
  | .processed => 0
  | .confirmed => 1
  | .finalized => 2

/-- Modelled from the spec: `commitmentComparator` from `@solana/rpc-types`
(not under src/) — a three-way comparator realising the ordering `processed <
confirmed < finalized`. -/
def commitmentComparator (a b : Commitment) : Int :=
  if commitmentRank a < commitmentRank b then -1
  else if commitmentRank a = commitmentRank b then 0
  else 1

/-- The ways a polling promise can settle: normal resolution, rejection with
the `SOLANA_ERROR__BLOCK_HEIGHT_EXCEEDED` error (carrying both heights),
rejection with the structured error translated from a transaction-level error,
or rejection with an abort error. -/
inductive PollSettlement where
  | resolvedOk
  | blockHeightExceeded (currentBlockHeight lastValidBlockHeight : Nat)
  | transactionFailed (error : SolanaTransactionError)
  | aborted
deriving DecidableEq, Repr

/-- Environment events for the block-height polling loop: an epoch-info
response carrying the current block height (heights are unsigned `bigint`s,
modelled as `Nat`), or the caller's abort signal firing at the current await
point. -/
inductive BlockHeightPollEvent where
  | epochInfoResponse (blockHeight : Nat)
  | abortFires
deriving DecidableEq, Repr

/-- Observable outcome of one run of the block-height polling loop. -/
structure BlockHeightPollRun where
  settlement : Option PollSettlement
  epochInfoRequests : List (Option Commitment)
  sleepDurations : List Nat
  handleAbortListenerRegistered : Bool
  internalControllerLive : Bool
  raceAbortListenersRemaining : Nat
deriving DecidableEq, Repr

/-- The `try` body of `getBlockHeightExceedenceByPollingPromise` interpreted
against an event list: fetch the height; while it is `<=
lastValidBlockHeight`, sleep one interval racing the abort signal and refetch;
on exit throw the block-height-exceeded error carrying both heights.  Each
settling branch also performs the `finally` teardown (remove `handleAbort`,
abort the internal controller); the anonymous listener each sleep race adds to
the caller's signal is never removed. -/
def blockHeightPollLoop (commitment : Option Commitment)
    (lastValidBlockHeight pollingInterval : Nat) :
    List BlockHeightPollEvent → BlockHeightPollRun
  | [] =>
    { settlement := none
      epochInfoRequests := [commitment]
      sleepDurations := []
      handleAbortListenerRegistered := true
      internalControllerLive := true
      raceAbortListenersRemaining := 0 }
  | .abortFires :: _ =>
    { settlement := some .aborted
      epochInfoRequests := [commitment]
      sleepDurations := []
      handleAbortListenerRegistered := false
      internalControllerLive := false
      raceAbortListenersRemaining := 0 }
  | .epochInfoResponse h :: rest =>
    if lastValidBlockHeight < h then
      { settlement := some (.blockHeightExceeded h lastValidBlockHeight)
        epochInfoRequests := [commitment]
        sleepDurations := []
        handleAbortListenerRegistered := false
        internalControllerLive := false
        raceAbortListenersRemaining := 0 }
    else
      let r := blockHeightPollLoop commitment lastValidBlockHeight pollingInterval rest
      { r with
        epochInfoRequests := commitment :: r.epochInfoRequests
        sleepDurations := pollingInterval :: r.sleepDurations
        raceAbortListenersRemaining := r.raceAbortListenersRemaining + 1 }

/-- Embedding of `getBlockHeightExceedenceByPollingPromise`: the function first
calls `callerAbortSignal.throwIfAborted()` — when the caller's signal is
already aborted at invocation the promise rejects with the abort error before
the listener is registered, the internal controller is created, or any
epoch-info fetch is issued — and otherwise runs the polling loop. -/
def getBlockHeightExceedenceByPollingPromise (commitment : Option Commitment)
    (lastValidBlockHeight pollingInterval : Nat) (initiallyAborted : Bool)
    (events : List BlockHeightPollEvent) : BlockHeightPollRun :=
  if initiallyAborted then
    { settlement := some .aborted
      epochInfoRequests := []
      sleepDurations := []
      handleAbortListenerRegistered := false
      internalControllerLive := false
      raceAbortListenersRemaining := 0 }
  else blockHeightPollLoop commitment lastValidBlockHeight pollingInterval events

/-- One entry of a `getSignatureStatuses` response: an optional
transaction-level error and an optional confirmation status. -/
structure SignatureStatus where
  err : Option TransactionError := none
  confirmationStatus : Option Commitment := none
deriving DecidableEq, Repr

/-- Environment events for the signature polling loop: a signature-status
response (`none` models the RPC reporting `null` for a signature not yet
observed by the node), or the caller's abort signal firing at the current
await point. -/
inductive SignaturePollEvent where
  | statusResponse (status : Option SignatureStatus)
  | abortFires
deriving DecidableEq, Repr

/-- Observable outcome of one run of the signature polling loop.
`signatureStatusRequests` records the signature batch passed to each
`getSignatureStatuses` call. -/
structure SignaturePollRun where
  settlement : Option PollSettlement
  signatureStatusRequests : List (List String)
  sleepDurations : List Nat
  handleAbortListenerRegistered : Bool
  internalControllerLive : Bool
  raceAbortListenersRemaining : Nat
deriving DecidableEq, Repr

/-- Embedding of `getRecentSignatureConfirmationByPollingPromise`: loop —
fetch `getSignatureStatuses([signature])`; if the status carries an error,
throw the structured error translated from it; if the status exists, has a
confirmation status, and that status compares `>= 0` against the requested
commitment, resolve; otherwise sleep one interval racing the abort signal and
refetch.  Settling branches perform the `finally` teardown as in the
block-height loop. -/
def getRecentSignatureConfirmationByPollingPromise (commitment : Commitment)
    (signature : String) (pollingInterval : Nat) :
    List SignaturePollEvent → SignaturePollRun
  | [] =>
    { settlement := none
      signatureStatusRequests := [[signature]]
      sleepDurations := []
      handleAbortListenerRegistered := true
      internalControllerLive := true
      raceAbortListenersRemaining := 0 }
  | .abortFires :: _ =>
    { settlement := some .aborted
      signatureStatusRequests := [[signature]]
      sleepDurations := []
      handleAbortListenerRegistered := false
      internalControllerLive := false
      raceAbortListenersRemaining := 0 }
  | .statusResponse status :: rest =>
    match status with
    | some s =>
      match s.err with
      | some e =>
        { settlement := some (.transactionFailed (getSolanaErrorFromTransactionError e))
          signatureStatusRequests := [[signature]]
          sleepDurations := []
          handleAbortListenerRegistered := false
          internalControllerLive := false
          raceAbortListenersRemaining := 0 }
      | none =>
        match s.confirmationStatus with
        | some cs =>
          if commitmentComparator cs commitment ≥ 0 then
            { settlement := some .resolvedOk
              signatureStatusRequests := [[signature]]
              sleepDurations := []
              handleAbortListenerRegistered := false
              internalControllerLive := false
              raceAbortListenersRemaining := 0 }
          else
            let r := getRecentSignatureConfirmationByPollingPromise commitment signature
              pollingInterval rest
            { r with
              signatureStatusRequests := [signature] :: r.signatureStatusRequests
              sleepDurations := pollingInterval :: r.sleepDurations
              raceAbortListenersRemaining := r.raceAbortListenersRemaining + 1 }
        | none =>
          let r := getRecentSignatureConfirmationByPollingPromise commitment signature
            pollingInterval rest
          { r with
            signatureStatusRequests := [signature] :: r.signatureStatusRequests
            sleepDurations := pollingInterval :: r.sleepDurations
            raceAbortListenersRemaining := r.raceAbortListenersRemaining + 1 }
    | none =>
      let r := getRecentSignatureConfirmationByPollingPromise commitment signature
        pollingInterval rest
      { r with
        signatureStatusRequests := [signature] :: r.signatureStatusRequests
        sleepDurations := pollingInterval :: r.sleepDurations
        raceAbortListenersRemaining := r.raceAbortListenersRemaining + 1 }

/-! ### Round-trip lemmas for the bit-array codec -/

theorem bitArrayBytesToAdd_eq (size : Nat) (backward : Bool) (value : List Bool) :
    bitArrayBytesToAdd size backward value =
      if backward then ((List.range size).map (bitArrayByte backward value)).reverse
      else (List.range size).map (bitArrayByte backward value) := by
  induction size with
  | zero => simp [bitArrayBytesToAdd]
  | succ n ih =>
    have hstep : bitArrayBytesToAdd (n + 1) backward value =
        (if backward then bitArrayByte backward value n :: bitArrayBytesToAdd n backward value
         else bitArrayBytesToAdd n backward value ++ [bitArrayByte backward value n]) := by
      cases backward <;>
        simp [bitArrayBytesToAdd, List.range_succ]
    rw [hstep, ih]
    cases backward <;> simp [List.range_succ]

theorem bitArrayByte_lt (backward : Bool) (value : List Bool) (i : Nat) :
    bitArrayByte backward value i < 256 := by
  have key : ∀ (l : List Nat), (∀ j ∈ l, j < 8) → ∀ b, b < 256 →
      l.foldl
        (fun byte j =>
          byte |||
            ((if value.getD (i * 8 + j) false then 1 else 0) <<<
              (if backward then j else 7 - j))) b < 256 := by
    intro l
    induction l with
    | nil => intro _ b hb; simpa using hb
    | cons x xs ih =>
      intro hl b hb
      simp only [List.foldl_cons]
      refine ih (fun j hj => hl j (List.mem_cons_of_mem _ hj)) _ ?_
      have hx : x < 8 := hl x (List.mem_cons_self _ _)
      have hsh : (if backward then x else 7 - x) ≤ 7 := by
        cases backward
        · simp
        · simp only [if_true]
          omega
      have hone : (if value.getD (i * 8 + x) false then 1 else 0) ≤ 1 := by
        split <;> simp
      have hterm : (if value.getD (i * 8 + x) false then 1 else 0) <<<
          (if backward then x else 7 - x) < 2 ^ 8 := by
        rw [Nat.shiftLeft_eq]
        calc (if value.getD (i * 8 + x) false then 1 else 0) *
              2 ^ (if backward then x else 7 - x)
            ≤ 1 * 2 ^ (if backward then x else 7 - x) := Nat.mul_le_mul_right _ hone
          _ = 2 ^ (if backward then x else 7 - x) := one_mul _
          _ ≤ 2 ^ 7 := Nat.pow_le_pow_right (by norm_num) hsh
          _ < 2 ^ 8 := by norm_num
      have hb8 : b < 2 ^ 8 := by norm_num at hb ⊢; exact hb
      have := Nat.or_lt_two_pow hb8 hterm
      norm_num at this ⊢
      exact this
  refine key (List.range 8) (fun j hj => List.mem_range.mp hj) 0 (by norm_num)

theorem bitArrayBitsOfByte_chunk : ∀ (backward b0 b1 b2 b3 b4 b5 b6 b7 : Bool),
    bitArrayBitsOfByte backward
        (bitArrayByte backward [b0, b1, b2, b3, b4, b5, b6, b7] 0) =
      [b0, b1, b2, b3, b4, b5, b6, b7] := by decide

theorem bitArrayBitsOfByte_of_length_eight (backward : Bool) (c : List Bool)
    (hc : c.length = 8) :
    bitArrayBitsOfByte backward (bitArrayByte backward c 0) = c := by
  rcases c with _ | ⟨b0, c⟩
  · simp at hc
  rcases c with _ | ⟨b1, c⟩
  · simp at hc
  rcases c with _ | ⟨b2, c⟩
  · simp at hc
  rcases c with _ | ⟨b3, c⟩
  · simp at hc
  rcases c with _ | ⟨b4, c⟩
  · simp at hc
  rcases c with _ | ⟨b5, c⟩
  · simp at hc
  rcases c with _ | ⟨b6, c⟩
  · simp at hc
  rcases c with _ | ⟨b7, c⟩
  · simp at hc
  rcases c with _ | ⟨b8, c⟩
  · exact bitArrayBitsOfByte_chunk backward b0 b1 b2 b3 b4 b5 b6 b7
  · simp at hc

theorem bitArrayByte_zero_append (backward : Bool) (c rest : List Bool) (hc : c.length = 8) :
    bitArrayByte backward (c ++ rest) 0 = bitArrayByte backward c 0 := by
  unfold bitArrayByte
  refine List.foldl_ext _ _ _ (fun a j hj => ?_)
  have hj8 : j < 8 := List.mem_range.mp hj
  rw [List.getD_append _ _ _ _ (by omega)]

theorem bitArrayByte_succ_append (backward : Bool) (c rest : List Bool) (hc : c.length = 8)
    (i : Nat) :
    bitArrayByte backward (c ++ rest) (i + 1) = bitArrayByte backward rest i := by
  unfold bitArrayByte
  refine List.foldl_ext _ _ _ (fun a j hj => ?_)
  have hj8 : j < 8 := List.mem_range.mp hj
  have hidx : (c ++ rest).getD ((i + 1) * 8 + j) false = rest.getD (i * 8 + j) false := by
    rw [List.getD_append_right _ _ _ _ (by omega)]
    congr 1
    omega
  rw [hidx]

theorem foldl_append_bitsOfByte (backward : Bool) (l : List Nat) (acc : List Bool) :
    l.foldl (fun acc byte => acc ++ bitArrayBitsOfByte backward byte) acc =
      acc ++ (l.map (bitArrayBitsOfByte backward)).flatten := by
  induction l generalizing acc with
  | nil => simp
  | cons x xs ih => simp [ih, List.append_assoc]

theorem flatten_bitArray_chunks (backward : Bool) :
    ∀ (size : Nat) (v : List Bool), v.length = 8 * size →
      (((List.range size).map (bitArrayByte backward v)).map
        (bitArrayBitsOfByte backward)).flatten = v := by
  intro size
  induction size with
  | zero =>
    intro v hv
    simp only [Nat.mul_zero] at hv
    simp [List.eq_nil_of_length_eq_zero hv]
  | succ n ih =>
    intro v hv
    have hsplit : v.take 8 ++ v.drop 8 = v := List.take_append_drop 8 v
    have htake : (v.take 8).length = 8 := by
      rw [List.length_take]
      omega
    have hdrop : (v.drop 8).length = 8 * n := by
      rw [List.length_drop]
      omega
    have hhead : bitArrayBitsOfByte backward (bitArrayByte backward v 0) = v.take 8 := by
      conv_lhs => rw [← hsplit]
      rw [bitArrayByte_zero_append backward _ _ htake]
      exact bitArrayBitsOfByte_of_length_eight backward _ htake
    have htail : ∀ i, bitArrayByte backward v (i + 1) = bitArrayByte backward (v.drop 8) i := by
      intro i
      conv_lhs => rw [← hsplit]
      exact bitArrayByte_succ_append backward _ _ htake i
    rw [List.range_succ_eq_map]
    simp only [List.map_cons, List.map_map, List.flatten_cons, Function.comp_def]
    rw [hhead]
    simp only [Nat.succ_eq_add_one, htail]
    have ih2 := ih (v.drop 8) hdrop
    simp only [List.map_map, Function.comp_def] at ih2
    rw [ih2]
    exact hsplit

theorem map_mod_eq_self (l : List Nat) (h : ∀ x ∈ l, x < 256) : l.map (· % 256) = l := by
  have := List.map_congr_left (l := l) (f := (· % 256)) (g := id)
    (fun x hx => Nat.mod_eq_of_lt (h x hx))
  simpa using this

theorem setAt_replicate_exact (l : List Nat) (n : Nat) (h : l.length = n) :
    setAt (List.replicate n 0) 0 l = l.map (· % 256) := by
  simp [setAt, List.drop_eq_nil_of_le, h]

theorem getBitArrayEncoder_encode (size : Nat) (config : BitArrayCodecConfig)
    (v : List Bool) :
    (getBitArrayEncoder size config).encode v =
      .ok (bitArrayBytesToAdd size (config.backward.getD false) v) := by
  have hlen : (bitArrayBytesToAdd size (config.backward.getD false) v).length = size := by
    rw [bitArrayBytesToAdd_eq]
    cases config.backward.getD false <;> simp
  have hlt : ∀ x ∈ bitArrayBytesToAdd size (config.backward.getD false) v, x < 256 := by
    intro x hx
    rw [bitArrayBytesToAdd_eq] at hx
    cases hb : config.backward.getD false <;> rw [hb] at hx <;> simp at hx <;>
      obtain ⟨i, _, rfl⟩ := hx <;> exact bitArrayByte_lt _ _ _
  simp only [Encoder.encode, getBitArrayEncoder, getEncodedSize]
  rw [setAt_replicate_exact _ _ hlen, map_mod_eq_self _ hlt]
  rfl

theorem getBitArrayDecoder_read_full (size : Nat) (config : BitArrayCodecConfig)
    (bytes : List Nat) (h : bytes.length = size) :
    (getBitArrayDecoder size config).read bytes 0 =
      .ok (((if config.backward.getD false then bytes.reverse else bytes).map
        (bitArrayBitsOfByte (config.backward.getD false))).flatten, size) := by
  have htake : bytes.take size = bytes := by
    rw [← h]
    exact List.take_length bytes
  simp only [getBitArrayDecoder, assertByteArrayHasEnoughBytesForCodec, h, Nat.sub_zero,
    lt_irrefl, if_false, List.drop_zero]
  rw [htake, foldl_append_bitsOfByte]
  simp only [List.nil_append, Nat.zero_add]
  rfl

/-- Round-trip law for the bit-array codec: for every byte count, config and
boolean list of length exactly 8 times the byte count, decoding the encoding
returns the original list. -/
theorem bitArray_roundTrip (size : Nat) (config : BitArrayCodecConfig) (v : List Bool)
    (hv : v.length = 8 * size) :
    decodeEncoded (getBitArrayEncoder size config) (getBitArrayDecoder size config) v =
      .ok v := by
  rw [decodeEncoded, getBitArrayEncoder_encode]
  have hlen : (bitArrayBytesToAdd size (config.backward.getD false) v).length = size := by
    rw [bitArrayBytesToAdd_eq]
    cases config.backward.getD false <;> simp
  show (getBitArrayDecoder size config).decode
      (bitArrayBytesToAdd size (config.backward.getD false) v) = .ok v
  rw [Decoder.decode, getBitArrayDecoder_read_full size config _ hlen, bitArrayBytesToAdd_eq]
  cases hb : config.backward.getD false
  · simpa [Except.map] using flatten_bitArray_chunks false size v hv
  · simpa [Except.map] using flatten_bitArray_chunks true size v hv


/-! ### General helper lemmas -/

theorem exceptBind_ok {α β ε : Type} (a : α) (f : α → Except ε β) :
    (Except.ok a >>= f) = f a := rfl

theorem exceptBind_error {α β ε : Type} (e : ε) (f : α → Except ε β) :
    ((Except.error e : Except ε α) >>= f) = Except.error e := rfl

theorem setAt_append (P rest vals : List Nat) :
    setAt (P ++ rest) P.length vals = P ++ vals.map (· % 256) ++ rest.drop vals.length := by
  simp [setAt, List.take_left, List.drop_append]

theorem sum_map_one {α : Type} (l : List α) : (l.map (fun _ => 1)).sum = l.length := by
  induction l with
  | nil => simp
  | cons x xs ih => simp [ih, Nat.add_comm]

theorem u8_write_fold (l : List Nat) : ∀ (P rest : List Nat), l.length ≤ rest.length →
    l.foldlM (fun (acc : List Nat × Nat) value => getU8Encoder.write value acc.1 acc.2)
      (P ++ rest, P.length) =
      .ok (P ++ l.map (· % 256) ++ rest.drop l.length, P.length + l.length) := by
  induction l with
  | nil =>
    intro P rest _
    show Except.ok (P ++ rest, P.length) = _
    simp
  | cons x xs ih =>
    intro P rest h
    obtain ⟨r0, rest2, rfl⟩ : ∃ r0 rest2, rest = r0 :: rest2 := by
      cases rest
      · simp at h
      · exact ⟨_, _, rfl⟩
    rw [List.foldlM_cons]
    have hstep : getU8Encoder.write x (P ++ r0 :: rest2) P.length =
        .ok ((P ++ [x % 256]) ++ rest2, (P ++ [x % 256]).length) := by
      have hset := setAt_append P (r0 :: rest2) [x]
      simp only [getU8Encoder, hset]
      simp
    rw [hstep, exceptBind_ok]
    have h2 : xs.length ≤ rest2.length := by
      simp at h
      omega
    rw [ih (P ++ [x % 256]) rest2 h2]
    simp only [List.append_assoc, List.singleton_append, List.length_append,
      List.length_singleton, List.map_cons, List.length_cons, List.drop_succ_cons,
      Except.ok.injEq, Prod.mk.injEq, true_and, and_true, List.length_nil]
    omega

theorem u8_read_count (l : List Nat) : ∀ (P Q : List Nat),
    readCountItems getU8Decoder l.length (P ++ l ++ Q) P.length =
      .ok (l, P.length + l.length) := by
  induction l with
  | nil =>
    intro P Q
    simp [readCountItems]
  | cons x xs ih =>
    intro P Q
    have hread : getU8Decoder.read (P ++ x :: xs ++ Q) P.length =
        .ok (x, P.length + 1) := by
      have hassert : assertByteArrayHasEnoughBytesForCodec "u8" 1 (P ++ x :: xs ++ Q)
          P.length = .ok () := by
        simp only [assertByteArrayHasEnoughBytesForCodec]
        rw [if_neg]
        simp
      have hget : (P ++ x :: xs ++ Q).getD P.length 0 = x := by
        rw [List.append_assoc, List.getD_append_right _ _ _ _ (Nat.le_refl _)]
        simp
      simp only [getU8Decoder, hassert, exceptBind_ok, hget]
    have ih2 := ih (P ++ [x]) Q
    have hbytes : (P ++ [x]) ++ xs ++ Q = P ++ x :: xs ++ Q := by simp
    rw [hbytes] at ih2
    have hplen : (P ++ [x]).length = P.length + 1 := by simp
    rw [hplen] at ih2
    show readCountItems getU8Decoder (xs.length + 1) (P ++ x :: xs ++ Q) P.length = _
    rw [readCountItems]
    simp only [hread, exceptBind_ok, ih2]
    simp only [List.length_cons, Except.ok.injEq, Prod.mk.injEq, true_and]
    omega

theorem u8_read_at (P tail : List Nat) (x : Nat) :
    getU8Decoder.read (P ++ x :: tail) P.length = .ok (x, P.length + 1) := by
  have hassert : assertByteArrayHasEnoughBytesForCodec "u8" 1 (P ++ x :: tail)
      P.length = .ok () := by
    simp only [assertByteArrayHasEnoughBytesForCodec]
    rw [if_neg]
    simp
  have hget : (P ++ x :: tail).getD P.length 0 = x := by
    rw [List.getD_append_right _ _ _ _ (Nat.le_refl _)]
    simp
  simp only [getU8Decoder, hassert, exceptBind_ok, hget]

theorem u8_read_remainder (l : List Nat) : ∀ (P : List Nat) (fuel : Nat),
    l.length ≤ fuel →
    readRemainderItems getU8Decoder fuel (P ++ l) P.length =
      .ok (l, P.length + l.length) := by
  induction l with
  | nil =>
    intro P fuel _
    cases fuel
    · simp [readRemainderItems]
    · simp [readRemainderItems]
  | cons x xs ih =>
    intro P fuel hf
    obtain ⟨f, rfl⟩ : ∃ f, fuel = f + 1 := ⟨fuel - 1, by simp at hf; omega⟩
    rw [readRemainderItems]
    have hcond : P.length < (P ++ x :: xs).length := by simp
    rw [if_pos hcond]
    have ih2 := ih (P ++ [x]) f (by simp at hf ⊢; omega)
    have hb : (P ++ [x]) ++ xs = P ++ x :: xs := by simp
    rw [hb] at ih2
    have hp : (P ++ [x]).length = P.length + 1 := by simp
    rw [hp] at ih2
    simp only [u8_read_at, exceptBind_ok, ih2]
    simp only [List.length_cons, Except.ok.injEq, Prod.mk.injEq, true_and]
    omega

theorem u32_bytes_mod (n : Nat) :
    [n % 256, n / 256 % 256, n / 65536 % 256, n / 16777216 % 256].map (· % 256) =
      [n % 256, n / 256 % 256, n / 65536 % 256, n / 16777216 % 256] := by
  simp

theorem u32_write_zero_buffer (n count : Nat) :
    getU32Encoder.write n (List.replicate (4 + count) 0) 0 =
      .ok ([n % 256, n / 256 % 256, n / 65536 % 256, n / 16777216 % 256] ++
        List.replicate count 0, 4) := by
  have h := setAt_append []
    (List.replicate (4 + count) 0)
    [n % 256, n / 256 % 256, n / 65536 % 256, n / 16777216 % 256]
  simp only [List.nil_append, List.length_nil] at h
  simp only [getU32Encoder, h, u32_bytes_mod, List.drop_replicate]
  norm_num

theorem u32_read_le (b0 b1 b2 b3 : Nat) (tail : List Nat) :
    getU32Decoder.read (b0 :: b1 :: b2 :: b3 :: tail) 0 =
      .ok (b0 + b1 * 256 + b2 * 65536 + b3 * 16777216, 4) := by
  have hassert : assertByteArrayHasEnoughBytesForCodec "u32" 4
      (b0 :: b1 :: b2 :: b3 :: tail) 0 = .ok () := by
    simp only [assertByteArrayHasEnoughBytesForCodec]
    rw [if_neg]
    simp
  simp only [getU32Decoder, hassert, exceptBind_ok, Nat.zero_add,
    List.getD_cons_zero, List.getD_cons_succ]

/-! ### Array codec behaviour lemmas -/

theorem getArrayEncoder_default_u8 (l : List Nat) :
    (getArrayEncoder getU8Encoder {}).encode l =
      .ok ([l.length % 256, l.length / 256 % 256, l.length / 65536 % 256,
            l.length / 16777216 % 256] ++ l.map (· % 256)) := by
  have hsize : getEncodedSize l (getArrayEncoder getU8Encoder {}) = 4 + l.length := by
    simp [getArrayEncoder, getEncodedSize, getFixedSize, computeArrayLikeCodecSize,
      getU32Encoder, getU8Encoder, sum_map_one]
  unfold Encoder.encode
  rw [hsize]
  show (do
      let (bytes, _) ←
        (getArrayEncoder getU8Encoder {}).write l (List.replicate (4 + l.length) 0) 0
      pure bytes : Except CodecError (List Nat)) = _
  have hwrite : (getArrayEncoder getU8Encoder {}).write l
      (List.replicate (4 + l.length) 0) 0 =
      .ok ([l.length % 256, l.length / 256 % 256, l.length / 65536 % 256,
            l.length / 16777216 % 256] ++ l.map (· % 256), 4 + l.length) := by
    show (do
        let _ ← (Except.ok () : Except CodecError Unit)
        let (bytes, offset) ←
          getU32Encoder.write l.length (List.replicate (4 + l.length) 0) 0
        l.foldlM (fun (acc : List Nat × Nat) value => getU8Encoder.write value acc.1 acc.2)
          (bytes, offset)) = _
    rw [exceptBind_ok, u32_write_zero_buffer, exceptBind_ok]
    show l.foldlM (fun (acc : List Nat × Nat) value => getU8Encoder.write value acc.1 acc.2)
      ([l.length % 256, l.length / 256 % 256, l.length / 65536 % 256,
        l.length / 16777216 % 256] ++ List.replicate l.length 0, 4) = _
    have hfold := u8_write_fold l
      [l.length % 256, l.length / 256 % 256, l.length / 65536 % 256,
        l.length / 16777216 % 256]
      (List.replicate l.length 0) (by simp)
    rw [show ([l.length % 256, l.length / 256 % 256, l.length / 65536 % 256,
      l.length / 16777216 % 256] : List Nat).length = 4 from rfl] at hfold
    rw [hfold]
    simp [List.drop_replicate]
  rw [hwrite]
  rfl

theorem getArrayDecoder_default_u8 (l : List Nat) (hl : ∀ x ∈ l, x < 256)
    (hlen : l.length < 4294967296) :
    (getArrayDecoder getU8Decoder {}).decode
      ([l.length % 256, l.length / 256 % 256, l.length / 65536 % 256,
        l.length / 16777216 % 256] ++ l.map (· % 256)) = .ok l := by
  have hmap : l.map (· % 256) = l := map_mod_eq_self l hl
  rw [hmap]
  unfold Decoder.decode
  have hread : (getArrayDecoder getU8Decoder {}).read
      ([l.length % 256, l.length / 256 % 256, l.length / 65536 % 256,
        l.length / 16777216 % 256] ++ l) 0 = .ok (l, 4 + l.length) := by
    simp only [getArrayDecoder, Option.getD]
    rw [if_neg (by simp)]
    have hu32 := u32_read_le (l.length % 256) (l.length / 256 % 256)
      (l.length / 65536 % 256) (l.length / 16777216 % 256) l
    simp only [List.cons_append, List.nil_append] at hu32 ⊢
    rw [hu32, exceptBind_ok]
    have hval : l.length % 256 + l.length / 256 % 256 * 256 + l.length / 65536 % 256 * 65536 +
        l.length / 16777216 % 256 * 16777216 = l.length := by omega
    rw [hval]
    have hcount := u8_read_count l
      [l.length % 256, l.length / 256 % 256, l.length / 65536 % 256,
        l.length / 16777216 % 256] []
    simp only [List.append_nil, List.length_cons, List.length_nil,
      List.cons_append, List.nil_append] at hcount
    rw [hcount]
  rw [hread]
  rfl

theorem getArrayEncoder_fixedCount_u8 (l : List Nat) (n : Nat) (h : l.length = n) :
    (getArrayEncoder getU8Encoder { size := some (.fixedCount n) }).encode l =
      .ok (l.map (· % 256)) := by
  have hsize : getEncodedSize l
      (getArrayEncoder getU8Encoder { size := some (.fixedCount n) }) = n := by
    rcases Nat.eq_zero_or_pos n with hn | hn
    · subst hn
      simp [getArrayEncoder, getEncodedSize, getFixedSize, computeArrayLikeCodecSize,
        getU8Encoder]
    · simp [getArrayEncoder, getEncodedSize, getFixedSize, computeArrayLikeCodecSize,
        getU8Encoder, Nat.pos_iff_ne_zero.mp hn]
  unfold Encoder.encode
  rw [hsize]
  show (do
      let (bytes, _) ← (getArrayEncoder getU8Encoder { size := some (.fixedCount n) }).write l
        (List.replicate n 0) 0
      pure bytes : Except CodecError (List Nat)) = _
  have hassert : assertValidNumberOfItemsForCodec "array" n l.length = .ok () := by
    simp [assertValidNumberOfItemsForCodec, h]
  have hwrite : (getArrayEncoder getU8Encoder { size := some (.fixedCount n) }).write l
      (List.replicate n 0) 0 = .ok (l.map (· % 256), l.length) := by
    show (do
        let _ ← assertValidNumberOfItemsForCodec "array" n l.length
        let (bytes, offset) ← (Except.ok (List.replicate n 0, 0) :
          Except CodecError (List Nat × Nat))
        l.foldlM (fun (acc : List Nat × Nat) value => getU8Encoder.write value acc.1 acc.2)
          (bytes, offset)) = _
    rw [hassert, exceptBind_ok, exceptBind_ok]
    show l.foldlM (fun (acc : List Nat × Nat) value => getU8Encoder.write value acc.1 acc.2)
      (List.replicate n 0, 0) = _
    have hfold := u8_write_fold l [] (List.replicate n 0) (by simp [h])
    simp only [List.nil_append, List.length_nil] at hfold
    rw [hfold]
    simp [List.drop_replicate, h]
  rw [hwrite]
  rfl

theorem getArrayDecoder_fixedCount_u8 (l : List Nat) (n : Nat) (hl : ∀ x ∈ l, x < 256)
    (h : l.length = n) :
    (getArrayDecoder getU8Decoder { size := some (.fixedCount n) }).decode
      (l.map (· % 256)) = .ok l := by
  rw [map_mod_eq_self l hl]
  unfold Decoder.decode
  have hread := u8_read_count l [] []
  simp only [List.nil_append, List.append_nil, List.length_nil, Nat.zero_add] at hread
  show ((readCountItems getU8Decoder n l 0).map Prod.fst : Except CodecError (List Nat)) = _
  rw [← h, hread]
  rfl

theorem getArrayEncoder_remainder_u8 (l : List Nat) :
    (getArrayEncoder getU8Encoder { size := some .remainder }).encode l =
      .ok (l.map (· % 256)) := by
  have hsize : getEncodedSize l
      (getArrayEncoder getU8Encoder { size := some .remainder }) = l.length := by
    simp [getArrayEncoder, getEncodedSize, getFixedSize, computeArrayLikeCodecSize,
      getU8Encoder, sum_map_one]
  unfold Encoder.encode
  rw [hsize]
  show (do
      let (bytes, _) ← (getArrayEncoder getU8Encoder { size := some .remainder }).write l
        (List.replicate l.length 0) 0
      pure bytes : Except CodecError (List Nat)) = _
  have hwrite : (getArrayEncoder getU8Encoder { size := some .remainder }).write l
      (List.replicate l.length 0) 0 = .ok (l.map (· % 256), l.length) := by
    show (do
        let _ ← (Except.ok () : Except CodecError Unit)
        let (bytes, offset) ← (Except.ok (List.replicate l.length 0, 0) :
          Except CodecError (List Nat × Nat))
        l.foldlM (fun (acc : List Nat × Nat) value => getU8Encoder.write value acc.1 acc.2)
          (bytes, offset)) = _
    rw [exceptBind_ok, exceptBind_ok]
    show l.foldlM (fun (acc : List Nat × Nat) value => getU8Encoder.write value acc.1 acc.2)
      (List.replicate l.length 0, 0) = _
    have hfold := u8_write_fold l [] (List.replicate l.length 0) (by simp)
    simp only [List.nil_append, List.length_nil] at hfold
    rw [hfold]
    simp [List.drop_replicate]
  rw [hwrite]
  rfl

theorem getArrayDecoder_remainder_u8 (l : List Nat) (hl : ∀ x ∈ l, x < 256) :
    (getArrayDecoder getU8Decoder { size := some .remainder }).decode
      (l.map (· % 256)) = .ok l := by
  rw [map_mod_eq_self l hl]
  unfold Decoder.decode
  have hread := u8_read_remainder l [] l.length (Nat.le_refl _)
  simp only [List.nil_append, List.length_nil, Nat.zero_add] at hread
  show ((readRemainderItems getU8Decoder l.length l 0).map Prod.fst :
    Except CodecError (List Nat)) = _
  rw [hread]
  rfl

/-! ### Bytes codec round trip -/

theorem bytes_roundTrip (bs : List Nat) (h : ∀ b ∈ bs, b < 256) :
    decodeEncoded getBytesEncoder getBytesDecoder bs = .ok bs := by
  have hencode : getBytesEncoder.encode bs = .ok bs := by
    unfold Encoder.encode
    show (do
        let (bytes, _) ← (Except.ok (setAt (List.replicate
          (getEncodedSize bs getBytesEncoder) 0) 0 bs, 0 + bs.length) :
          Except CodecError (List Nat × Nat))
        pure bytes) = _
    rw [exceptBind_ok]
    have : setAt (List.replicate (getEncodedSize bs getBytesEncoder) 0) 0 bs = bs := by
      rw [show getEncodedSize bs getBytesEncoder = bs.length from rfl,
        setAt_replicate_exact bs bs.length rfl, map_mod_eq_self bs h]
    rw [this]
    rfl
  rw [decodeEncoded, hencode]
  show getBytesDecoder.decode bs = .ok bs
  unfold Decoder.decode
  rfl

/-! ### Hidden-suffix codec lemmas -/

theorem suffixesFixedSize_constants (suffixes : List (List Nat)) :
    suffixesFixedSize (suffixes.map getConstantEncoder) =
      some (suffixes.map List.length).sum := by
  induction suffixes with
  | nil => simp [suffixesFixedSize]
  | cons c ss ih => simp [suffixesFixedSize, getConstantEncoder, getFixedSize, ih]

theorem constant_write_fold (suffixes : List (List Nat)) : ∀ (P rest : List Nat),
    (suffixes.map List.length).sum ≤ rest.length →
    (suffixes.map getConstantEncoder).foldlM
        (fun (acc : List Nat × Nat) s => s.write () acc.1 acc.2) (P ++ rest, P.length) =
      .ok (P ++ (suffixes.map (fun c => c.map (· % 256))).flatten ++
        rest.drop (suffixes.map List.length).sum,
        P.length + (suffixes.map List.length).sum) := by
  induction suffixes with
  | nil =>
    intro P rest _
    show Except.ok (P ++ rest, P.length) = _
    simp
  | cons c ss ih =>
    intro P rest h
    rw [List.map_cons, List.foldlM_cons]
    have hstep : (getConstantEncoder c).write () (P ++ rest) P.length =
        .ok ((P ++ c.map (· % 256)) ++ rest.drop c.length,
          (P ++ c.map (· % 256)).length) := by
      simp only [getConstantEncoder, setAt_append]
      simp [List.append_assoc]
    rw [hstep, exceptBind_ok]
    have hsum : (ss.map List.length).sum ≤ (rest.drop c.length).length := by
      simp only [List.length_drop]
      simp only [List.map_cons, List.sum_cons] at h
      omega
    rw [ih (P ++ c.map (· % 256)) (rest.drop c.length) hsum]
    simp only [List.drop_drop, List.append_assoc, List.map_cons, List.sum_cons,
      List.flatten_cons, List.length_append, List.length_map,
      Except.ok.injEq, Prod.mk.injEq]
    constructor
    · constructor
    · omega

theorem constant_read_fold (suffixes : List (List Nat)) : ∀ (P Q : List Nat),
    (suffixes.map getConstantDecoder).foldlM
        (fun (acc : Unit × Nat) d => d.read (P ++ suffixes.flatten ++ Q) acc.2)
        ((), P.length) =
      .ok ((), P.length + suffixes.flatten.length) := by
  induction suffixes with
  | nil =>
    intro P Q
    show Except.ok ((), P.length) = _
    simp
  | cons c ss ih =>
    intro P Q
    rw [List.map_cons, List.foldlM_cons]
    have hbytes : P ++ (c :: ss).flatten ++ Q = (P ++ c) ++ ss.flatten ++ Q := by
      simp
    have hstep : (getConstantDecoder c).read (P ++ (c :: ss).flatten ++ Q) P.length =
        .ok ((), P.length + c.length) := by
      simp only [getConstantDecoder]
      have hdt : ((P ++ (c :: ss).flatten ++ Q).drop P.length).take c.length = c := by
        have hb2 : P ++ (c :: ss).flatten ++ Q = P ++ (c ++ (ss.flatten ++ Q)) := by simp
        rw [hb2, List.drop_left, List.take_left]
      rw [if_pos hdt]
    rw [hstep, exceptBind_ok]
    have ih2 := ih (P ++ c) Q
    rw [← hbytes] at ih2
    have hp : (P ++ c).length = P.length + c.length := by simp
    rw [hp] at ih2
    rw [ih2]
    simp only [List.flatten_cons, List.length_append, Except.ok.injEq, Prod.mk.injEq,
      true_and]
    omega

theorem hiddenSuffix_u8_roundTrip (v : Nat) (hv : v < 256) (suffixes : List (List Nat))
    (hs : ∀ c ∈ suffixes, ∀ b ∈ c, b < 256) :
    decodeEncoded (getHiddenSuffixEncoder getU8Encoder (suffixes.map getConstantEncoder))
      (getHiddenSuffixDecoder getU8Decoder (suffixes.map getConstantDecoder)) v =
      .ok v := by
  have hflat : (suffixes.map (fun c => c.map (· % 256))).flatten = suffixes.flatten := by
    have : suffixes.map (fun c => c.map (· % 256)) = suffixes.map id := by
      refine List.map_congr_left (fun c hc => ?_)
      simpa using map_mod_eq_self c (hs c hc)
    rw [this, List.map_id]
  have hsizes : getEncodedSize v
      (getHiddenSuffixEncoder getU8Encoder (suffixes.map getConstantEncoder)) =
      1 + (suffixes.map List.length).sum := by
    simp [getHiddenSuffixEncoder, getEncodedSize, getFixedSize, getU8Encoder,
      suffixesFixedSize_constants]
  have hencode : (getHiddenSuffixEncoder getU8Encoder
      (suffixes.map getConstantEncoder)).encode v = .ok (v :: suffixes.flatten) := by
    unfold Encoder.encode
    rw [hsizes]
    have hu8 : getU8Encoder.write v
        (List.replicate (1 + (suffixes.map List.length).sum) 0) 0 =
        .ok ([v % 256] ++ List.replicate (suffixes.map List.length).sum 0, 1) := by
      have h := setAt_append [] (List.replicate (1 + (suffixes.map List.length).sum) 0) [v]
      simp only [List.nil_append, List.length_nil] at h
      simp only [getU8Encoder, h, List.drop_replicate]
      norm_num
    have hwrite : (getHiddenSuffixEncoder getU8Encoder
        (suffixes.map getConstantEncoder)).write v
        (List.replicate (1 + (suffixes.map List.length).sum) 0) 0 =
        .ok (v :: suffixes.flatten, 1 + (suffixes.map List.length).sum) := by
      show (do
          let (bytes, offset) ← getU8Encoder.write v
            (List.replicate (1 + (suffixes.map List.length).sum) 0) 0
          (suffixes.map getConstantEncoder).foldlM
            (fun (acc : List Nat × Nat) (s : Encoder Unit) => s.write () acc.1 acc.2)
            (bytes, offset)) = _
      rw [hu8, exceptBind_ok]
      show (suffixes.map getConstantEncoder).foldlM
        (fun (acc : List Nat × Nat) (s : Encoder Unit) => s.write () acc.1 acc.2)
        ([v % 256] ++ List.replicate (suffixes.map List.length).sum 0, 1) = _
      have hfold := constant_write_fold suffixes [v % 256]
        (List.replicate (suffixes.map List.length).sum 0) (by simp)
      rw [show ([v % 256] : List Nat).length = 1 from rfl] at hfold
      rw [hfold]
      simp only [List.drop_replicate, Nat.sub_self, List.replicate_zero, List.append_nil,
        hflat, Except.ok.injEq, Prod.mk.injEq]
      constructor
      · rw [Nat.mod_eq_of_lt hv]
        simp
      · simp
    show (do
        let (bytes, _) ← (getHiddenSuffixEncoder getU8Encoder
          (suffixes.map getConstantEncoder)).write v
          (List.replicate (1 + (suffixes.map List.length).sum) 0) 0
        pure bytes : Except CodecError (List Nat)) = _
    rw [hwrite]
    rfl
  rw [decodeEncoded, hencode]
  show (getHiddenSuffixDecoder getU8Decoder (suffixes.map getConstantDecoder)).decode
      (v :: suffixes.flatten) = .ok v
  unfold Decoder.decode
  have hu8read : getU8Decoder.read (v :: suffixes.flatten) 0 = .ok (v, 1) := by
    have h := u8_read_at [] suffixes.flatten v
    simpa using h
  have hfoldread := constant_read_fold suffixes [v] []
  simp only [List.append_nil, List.length_cons, List.length_nil, List.singleton_append]
    at hfoldread
  show ((do
      let (value, offset) ← getU8Decoder.read (v :: suffixes.flatten) 0
      let (_, offset2) ← (suffixes.map getConstantDecoder).foldlM
        (fun (acc : Unit × Nat) (d : Decoder Unit) => d.read (v :: suffixes.flatten) acc.2)
        ((), offset)
      (.ok (value, offset2) : Except CodecError (Nat × Nat))).map Prod.fst :
    Except CodecError Nat) = _
  rw [hu8read, exceptBind_ok]
  show (Except.map Prod.fst (do
      let (_, offset2) ← (suffixes.map getConstantDecoder).foldlM
        (fun (acc : Unit × Nat) (d : Decoder Unit) => d.read (v :: suffixes.flatten) acc.2)
        ((), 1)
      (Except.ok (v, offset2) : Except CodecError (Nat × Nat))) : Except CodecError Nat) = _
  rw [hfoldread]
  rfl

/-! ## Claim theorems -/

/-- C3: the bit-array encoder with size 1 and default config maps the boolean
list [true,false,true,false,false,false,false,false] to the single byte 0xa0,
and with config backward: true maps the same list to the single byte 0x05. -/
theorem claim_C3_bitArray_examples :
    (getBitArrayEncoder 1 {}).encode
        [true, false, true, false, false, false, false, false] = .ok [0xa0] ∧
      (getBitArrayEncoder 1 { backward := some true }).encode
        [true, false, true, false, false, false, false, false] = .ok [0x05] :=
  ⟨rfl, rfl⟩

/-- C5 counterexample: a size-0 array encoder does not encode every input to
zero bytes — encoding the non-empty input [1] raises the array-length error
(invalid number of items: expected 0, actual 1) instead of producing zero
bytes. -/
theorem claim_C5_counterexample :
    (getArrayEncoder getU8Encoder { size := some (.fixedCount 0) }).encode [1] =
        .error (.invalidNumberOfItems "array" 0 1) ∧
      (getArrayEncoder getU8Encoder { size := some (.fixedCount 0) }).encode [1] ≠
        .ok [] := by
  constructor
  · rfl
  · intro hcontra
    rw [show (getArrayEncoder getU8Encoder { size := some (.fixedCount 0) }).encode [1] =
      .error (.invalidNumberOfItems "array" 0 1) from rfl] at hcontra
    exact Except.noConfusion hcontra

/-- C5 (amended): an array codec constructed with size 0 is fixed-size with
fixed size 0; its decode is always the empty array at the unchanged offset,
consuming zero bytes, for any byte sequence and offset; encoding the empty
array produces zero bytes, but encoding a non-empty input raises the
array-length error rather than producing zero bytes. -/
theorem claim_C5_amended :
    (∀ (α : Type) (item : Encoder α),
        (getArrayEncoder item { size := some (.fixedCount 0) }).size =
          .fixedSize 0) ∧
      (∀ (α : Type) (item : Decoder α),
        (getArrayDecoder item { size := some (.fixedCount 0) }).fixedSize = some 0) ∧
      (∀ (α : Type) (item : Encoder α),
        (getArrayEncoder item { size := some (.fixedCount 0) }).encode [] = .ok []) ∧
      (∀ (α : Type) (item : Encoder α) (a : α) (as : List α),
        (getArrayEncoder item { size := some (.fixedCount 0) }).encode (a :: as) =
          .error (.invalidNumberOfItems "array" 0 (a :: as).length)) ∧
      (∀ (α : Type) (item : Decoder α) (bytes : List Nat) (offset : Nat),
        (getArrayDecoder item { size := some (.fixedCount 0) }).read bytes offset =
          .ok ([], offset)) :=
  ⟨fun _ _ => rfl, fun _ _ => rfl, fun _ _ => rfl, fun _ _ _ _ => rfl,
    fun _ _ _ _ => rfl⟩

/-- C7: for every array encoder with a literal numeric size n, encoding an
input whose length differs from n raises the array-length error before any
bytes are written, and encoding an input of length n writes exactly the n
items in order with no count prefix; e.g. getArrayEncoder(u8Codec, size 3)
encodes [1,2,3] as 0x010203 and raises the array-length error on [1,2]. -/
theorem claim_C7_fixed_size_array_encoder :
    (∀ (α : Type) (item : Encoder α) (n : Nat) (array : List α) (bytes : List Nat)
        (offset : Nat), array.length ≠ n →
        (getArrayEncoder item { size := some (.fixedCount n) }).write array bytes offset =
          .error (.invalidNumberOfItems "array" n array.length)) ∧
      (∀ (α : Type) (item : Encoder α) (n : Nat) (array : List α) (bytes : List Nat)
        (offset : Nat), array.length = n →
        (getArrayEncoder item { size := some (.fixedCount n) }).write array bytes offset =
          array.foldlM (fun (acc : List Nat × Nat) value => item.write value acc.1 acc.2)
            (bytes, offset)) ∧
      (getArrayEncoder getU8Encoder { size := some (.fixedCount 3) }).encode [1, 2, 3] =
        .ok [1, 2, 3] ∧
      (getArrayEncoder getU8Encoder { size := some (.fixedCount 3) }).encode [1, 2] =
        .error (.invalidNumberOfItems "array" 3 2) := by
  refine ⟨?_, ?_, rfl, rfl⟩
  · intro α item n array bytes offset hne
    have hassert : assertValidNumberOfItemsForCodec "array" n array.length =
        .error (.invalidNumberOfItems "array" n array.length) := by
      simp [assertValidNumberOfItemsForCodec, hne]
    show (do
        let _ ← assertValidNumberOfItemsForCodec "array" n array.length
        let (bytes2, offset2) ← (Except.ok (bytes, offset) :
          Except CodecError (List Nat × Nat))
        array.foldlM (fun (acc : List Nat × Nat) value => item.write value acc.1 acc.2)
          (bytes2, offset2)) = _
    rw [hassert, exceptBind_error]
  · intro α item n array bytes offset he
    have hassert : assertValidNumberOfItemsForCodec "array" n array.length = .ok () := by
      simp [assertValidNumberOfItemsForCodec, he]
    show (do
        let _ ← assertValidNumberOfItemsForCodec "array" n array.length
        let (bytes2, offset2) ← (Except.ok (bytes, offset) :
          Except CodecError (List Nat × Nat))
        array.foldlM (fun (acc : List Nat × Nat) value => item.write value acc.1 acc.2)
          (bytes2, offset2)) = _
    rw [hassert, exceptBind_ok, exceptBind_ok]

/-- C7 witness: the fixed-size-3 u8 array encoder at the concrete inputs of the
claim. -/
theorem claim_C7_witness :
    ([1, 2] : List Nat).length ≠ 3 ∧
      (getArrayEncoder getU8Encoder { size := some (.fixedCount 3) }).write [1, 2]
        [0, 0, 0] 0 = .error (.invalidNumberOfItems "array" 3 2) ∧
      ([1, 2, 3] : List Nat).length = 3 ∧
      (getArrayEncoder getU8Encoder { size := some (.fixedCount 3) }).write [1, 2, 3]
          [0, 0, 0] 0 =
        [1, 2, 3].foldlM
          (fun (acc : List Nat × Nat) value => getU8Encoder.write value acc.1 acc.2)
          ([0, 0, 0], 0) :=
  ⟨by decide,
    claim_C7_fixed_size_array_encoder.1 Nat getU8Encoder 3 [1, 2] [0, 0, 0] 0 (by decide),
    by decide,
    claim_C7_fixed_size_array_encoder.2.1 Nat getU8Encoder 3 [1, 2, 3] [0, 0, 0] 0
      (by decide)⟩

/-- C8: for every array encoder constructed with no size config, encoding an
array writes a 4-byte unsigned little-endian count of the items followed by
each item's encoding in order — e.g. getArrayEncoder(u8Codec) encodes [1,2,3]
as 0x03000000010203. -/
theorem claim_C8_default_prefix_array_encoder :
    (∀ (l : List Nat), (getArrayEncoder getU8Encoder {}).encode l =
        .ok ([l.length % 256, l.length / 256 % 256, l.length / 65536 % 256,
              l.length / 16777216 % 256] ++ l.map (· % 256))) ∧
      (getArrayEncoder getU8Encoder {}).encode [1, 2, 3] =
        .ok [3, 0, 0, 0, 1, 2, 3] :=
  ⟨getArrayEncoder_default_u8, by
    rw [getArrayEncoder_default_u8]
    rfl⟩

/-- C9: for every array decoder whose size strategy is a number-codec prefix,
reading at an offset with zero remaining bytes returns the empty array at the
unchanged offset instead of raising a not-enough-bytes error for the missing
count prefix. -/
theorem claim_C9_prefixed_decoder_empty_bytes (α : Type) (p : Decoder Nat)
    (item : Decoder α) (bytes : List Nat) (offset : Nat) (h : bytes.length ≤ offset) :
    (getArrayDecoder item { size := some (.prefixed p) }).read bytes offset =
      .ok ([], offset) := by
  simp only [getArrayDecoder, Option.getD]
  rw [if_pos (by rw [List.length_drop]; omega)]

/-- C9 witness: the u32-prefixed u8 array decoder on an empty byte sequence at
offset 0. -/
theorem claim_C9_witness :
    ([] : List Nat).length ≤ 0 ∧
      (getArrayDecoder getU8Decoder { size := some (.prefixed getU32Decoder) }).read [] 0 =
        .ok ([], 0) :=
  ⟨by decide,
    claim_C9_prefixed_decoder_empty_bytes Nat getU32Decoder getU8Decoder [] 0 (by decide)⟩

/-- C10: calling the block-height-exceedance polling function with a caller
abort signal that is already aborted at invocation rejects with the abort
error before any epoch-info fetch is issued: the run settles aborted with an
empty request list, no sleeps, and no listener or controller ever created. -/
theorem claim_C10_already_aborted (commitment : Option Commitment)
    (lastValidBlockHeight pollingInterval : Nat) (events : List BlockHeightPollEvent) :
    getBlockHeightExceedenceByPollingPromise commitment lastValidBlockHeight
        pollingInterval true events =
      { settlement := some .aborted
        epochInfoRequests := []
        sleepDurations := []
        handleAbortListenerRegistered := false
        internalControllerLive := false
        raceAbortListenersRemaining := 0 } := rfl

/-- C4: round-trip law — decoding the encoding returns the original value: for
every size, backward config and boolean list of length exactly 8·size for the
bit-array codec; for every byte sequence for the bytes codec; for u8 arrays
under the default u32-prefix, literal-count and remainder size strategies (with
input length matching the size strategy and fitting the prefix); and for
hidden-suffix codecs around a u8 value with constant suffixes (on the exposed
main value). -/
theorem claim_C4_roundTrip :
    (∀ (size : Nat) (config : BitArrayCodecConfig) (v : List Bool),
        v.length = 8 * size →
        decodeEncoded (getBitArrayEncoder size config) (getBitArrayDecoder size config) v =
          .ok v) ∧
      (∀ (bs : List Nat), (∀ b ∈ bs, b < 256) →
        decodeEncoded getBytesEncoder getBytesDecoder bs = .ok bs) ∧
      (∀ (l : List Nat), (∀ x ∈ l, x < 256) → l.length < 4294967296 →
        decodeEncoded (getArrayEncoder getU8Encoder {}) (getArrayDecoder getU8Decoder {})
          l = .ok l) ∧
      (∀ (n : Nat) (l : List Nat), (∀ x ∈ l, x < 256) → l.length = n →
        decodeEncoded (getArrayEncoder getU8Encoder { size := some (.fixedCount n) })
          (getArrayDecoder getU8Decoder { size := some (.fixedCount n) }) l = .ok l) ∧
      (∀ (l : List Nat), (∀ x ∈ l, x < 256) →
        decodeEncoded (getArrayEncoder getU8Encoder { size := some .remainder })
          (getArrayDecoder getU8Decoder { size := some .remainder }) l = .ok l) ∧
      (∀ (v : Nat) (suffixes : List (List Nat)), v < 256 →
        (∀ c ∈ suffixes, ∀ b ∈ c, b < 256) →
        decodeEncoded
          (getHiddenSuffixEncoder getU8Encoder (suffixes.map getConstantEncoder))
          (getHiddenSuffixDecoder getU8Decoder (suffixes.map getConstantDecoder)) v =
          .ok v) := by
  refine ⟨bitArray_roundTrip, bytes_roundTrip, ?_, ?_, ?_,
    fun v suffixes hv hs => hiddenSuffix_u8_roundTrip v hv suffixes hs⟩
  · intro l hl hlen
    rw [decodeEncoded, getArrayEncoder_default_u8]
    exact getArrayDecoder_default_u8 l hl hlen
  · intro n l hl hlen
    rw [decodeEncoded, getArrayEncoder_fixedCount_u8 l n hlen]
    exact getArrayDecoder_fixedCount_u8 l n hl hlen
  · intro l hl
    rw [decodeEncoded, getArrayEncoder_remainder_u8]
    exact getArrayDecoder_remainder_u8 l hl

/-- C4 witness: the round-trip law instantiated at concrete values for each
codec family. -/
theorem claim_C4_witness :
    ([true, true, false, true, false, false, false, true] : List Bool).length = 8 * 1 ∧
      decodeEncoded (getBitArrayEncoder 1 { backward := some true })
        (getBitArrayDecoder 1 { backward := some true })
        [true, true, false, true, false, false, false, true] =
        .ok [true, true, false, true, false, false, false, true] ∧
      decodeEncoded getBytesEncoder getBytesDecoder [1, 2, 255] = .ok [1, 2, 255] ∧
      decodeEncoded (getArrayEncoder getU8Encoder {}) (getArrayDecoder getU8Decoder {})
        [1, 2, 3] = .ok [1, 2, 3] ∧
      decodeEncoded (getArrayEncoder getU8Encoder { size := some (.fixedCount 3) })
        (getArrayDecoder getU8Decoder { size := some (.fixedCount 3) }) [1, 2, 3] =
        .ok [1, 2, 3] ∧
      decodeEncoded (getArrayEncoder getU8Encoder { size := some .remainder })
        (getArrayDecoder getU8Decoder { size := some .remainder }) [9, 8] = .ok [9, 8] ∧
      decodeEncoded (getHiddenSuffixEncoder getU8Encoder ([[7, 8]].map getConstantEncoder))
        (getHiddenSuffixDecoder getU8Decoder ([[7, 8]].map getConstantDecoder)) 42 =
        .ok 42 :=
  ⟨by decide,
    claim_C4_roundTrip.1 1 { backward := some true } _ (by decide),
    claim_C4_roundTrip.2.1 _ (by decide),
    claim_C4_roundTrip.2.2.1 _ (by decide) (by decide),
    claim_C4_roundTrip.2.2.2.1 3 _ (by decide) (by decide),
    claim_C4_roundTrip.2.2.2.2.1 _ (by decide),
    claim_C4_roundTrip.2.2.2.2.2 42 [[7, 8]] (by decide) (by decide)⟩

/-! ### Polling loop helper lemmas -/

theorem blockHeightPollLoop_never_resolves (commitment : Option Commitment) (c pi : Nat) :
    ∀ (events : List BlockHeightPollEvent),
    (blockHeightPollLoop commitment c pi events).settlement ≠ some .resolvedOk := by
  intro events
  induction events with
  | nil => simp [blockHeightPollLoop]
  | cons e rest ih =>
    cases e with
    | abortFires => simp [blockHeightPollLoop]
    | epochInfoResponse h =>
      by_cases hc : c < h
      · simp [blockHeightPollLoop, hc]
      · simpa [blockHeightPollLoop, hc] using ih

theorem blockHeightPollLoop_exceeded_head (commitment : Option Commitment) (c pi h : Nat)
    (rest : List BlockHeightPollEvent) (hc : c < h) :
    blockHeightPollLoop commitment c pi (.epochInfoResponse h :: rest) =
      { settlement := some (.blockHeightExceeded h c)
        epochInfoRequests := [commitment]
        sleepDurations := []
        handleAbortListenerRegistered := false
        internalControllerLive := false
        raceAbortListenersRemaining := 0 } := by
  simp [blockHeightPollLoop, hc]

theorem blockHeightPollLoop_low_run (commitment : Option Commitment) (c pi : Nat) :
    ∀ (hs : List Nat) (h : Nat), (∀ x ∈ hs, x ≤ c) → c < h →
    blockHeightPollLoop commitment c pi
        (hs.map .epochInfoResponse ++ [.epochInfoResponse h]) =
      { settlement := some (.blockHeightExceeded h c)
        epochInfoRequests := List.replicate (hs.length + 1) commitment
        sleepDurations := List.replicate hs.length pi
        handleAbortListenerRegistered := false
        internalControllerLive := false
        raceAbortListenersRemaining := hs.length } := by
  intro hs
  induction hs with
  | nil =>
    intro h _ hc
    simpa using blockHeightPollLoop_exceeded_head commitment c pi h [] hc
  | cons x xs ih =>
    intro h hall hc
    have hx : ¬ c < x := by
      have := hall x (List.mem_cons_self _ _)
      omega
    have ih2 := ih h (fun y hy => hall y (List.mem_cons_of_mem _ hy)) hc
    simp only [List.map_cons, List.cons_append, blockHeightPollLoop, if_neg hx,
      List.append_eq]
    rw [ih2]
    simp [List.replicate_succ]

theorem blockHeightPollLoop_all_low (commitment : Option Commitment) (c pi : Nat) :
    ∀ (events : List BlockHeightPollEvent),
    (∀ h, BlockHeightPollEvent.epochInfoResponse h ∈ events → h ≤ c) →
    ∀ s, (blockHeightPollLoop commitment c pi events).settlement = some s →
    s = .aborted := by
  intro events
  induction events with
  | nil =>
    intro _ s hs
    simp [blockHeightPollLoop] at hs
  | cons e rest ih =>
    intro hall s hs
    cases e with
    | abortFires =>
      simp [blockHeightPollLoop] at hs
      exact hs.symm
    | epochInfoResponse h =>
      have hx : ¬ c < h := by
        have := hall h (List.mem_cons_self _ _)
        omega
      simp only [blockHeightPollLoop, if_neg hx] at hs
      exact ih (fun h2 hm => hall h2 (List.mem_cons_of_mem _ hm)) s hs

theorem blockHeightPollLoop_teardown (commitment : Option Commitment) (c pi : Nat) :
    ∀ (events : List BlockHeightPollEvent) (s : PollSettlement),
    (blockHeightPollLoop commitment c pi events).settlement = some s →
    (blockHeightPollLoop commitment c pi events).handleAbortListenerRegistered = false ∧
      (blockHeightPollLoop commitment c pi events).internalControllerLive = false := by
  intro events
  induction events with
  | nil =>
    intro s hs
    simp [blockHeightPollLoop] at hs
  | cons e rest ih =>
    intro s hs
    cases e with
    | abortFires => exact ⟨rfl, rfl⟩
    | epochInfoResponse h =>
      by_cases hc : c < h
      · simp [blockHeightPollLoop, hc]
      · simp only [blockHeightPollLoop, if_neg hc] at hs ⊢
        exact ih s hs

theorem sigPoll_requests_all (commitment : Commitment) (sig : String) (pi : Nat) :
    ∀ (events : List SignaturePollEvent),
    ∀ r ∈ (getRecentSignatureConfirmationByPollingPromise commitment sig pi
        events).signatureStatusRequests, r = [sig] := by
  intro events
  induction events with
  | nil =>
    intro r hr
    simp [getRecentSignatureConfirmationByPollingPromise] at hr
    exact hr
  | cons e rest ih =>
    intro r hr
    cases e with
    | abortFires =>
      simp [getRecentSignatureConfirmationByPollingPromise] at hr
      exact hr
    | statusResponse status =>
      cases status with
      | none =>
        simp only [getRecentSignatureConfirmationByPollingPromise] at hr
        rcases List.mem_cons.mp hr with h1 | h2
        · exact h1
        · exact ih r h2
      | some st =>
        rcases st with ⟨err, cs⟩
        cases err with
        | some e2 =>
          simp [getRecentSignatureConfirmationByPollingPromise] at hr
          exact hr
        | none =>
          cases cs with
          | some cl =>
            by_cases hcmp : commitmentComparator cl commitment ≥ 0
            · simp [getRecentSignatureConfirmationByPollingPromise, hcmp] at hr
              exact hr
            · simp only [getRecentSignatureConfirmationByPollingPromise,
                if_neg hcmp] at hr
              rcases List.mem_cons.mp hr with h1 | h2
              · exact h1
              · exact ih r h2
          | none =>
            simp only [getRecentSignatureConfirmationByPollingPromise] at hr
            rcases List.mem_cons.mp hr with h1 | h2
            · exact h1
            · exact ih r h2

theorem sigPoll_teardown (commitment : Commitment) (sig : String) (pi : Nat) :
    ∀ (events : List SignaturePollEvent) (s : PollSettlement),
    (getRecentSignatureConfirmationByPollingPromise commitment sig pi
        events).settlement = some s →
    (getRecentSignatureConfirmationByPollingPromise commitment sig pi
        events).handleAbortListenerRegistered = false ∧
      (getRecentSignatureConfirmationByPollingPromise commitment sig pi
        events).internalControllerLive = false := by
  intro events
  induction events with
  | nil =>
    intro s hs
    simp [getRecentSignatureConfirmationByPollingPromise] at hs
  | cons e rest ih =>
    intro s hs
    cases e with
    | abortFires => exact ⟨rfl, rfl⟩
    | statusResponse status =>
      cases status with
      | none =>
        simp only [getRecentSignatureConfirmationByPollingPromise] at hs ⊢
        exact ih s hs
      | some st =>
        rcases st with ⟨err, cs⟩
        cases err with
        | some e2 => exact ⟨rfl, rfl⟩
        | none =>
          cases cs with
          | some cl =>
            by_cases hcmp : commitmentComparator cl commitment ≥ 0
            · simp [getRecentSignatureConfirmationByPollingPromise, hcmp]
            · simp only [getRecentSignatureConfirmationByPollingPromise,
                if_neg hcmp] at hs ⊢
              exact ih s hs
          | none =>
            simp only [getRecentSignatureConfirmationByPollingPromise] at hs ⊢
            exact ih s hs

/-- C1: the block-height-exceedance polling promise never resolves
successfully; if the first fetched height already exceeds lastValidBlockHeight
it rejects immediately after that single fetch with the block-height-exceeded
error carrying both heights; if a later fetched height first exceeds the
ceiling after n additional polls it rejects with that error after exactly n
additional fetches, each preceded by one completed sleep of the polling
interval; and when no fetched height exceeds the ceiling the promise settles
only with an abort error. -/
theorem claim_C1_blockHeight_polling (commitment : Option Commitment)
    (lastValidBlockHeight pollingInterval : Nat) (initiallyAborted : Bool)
    (events : List BlockHeightPollEvent) :
    (getBlockHeightExceedenceByPollingPromise commitment lastValidBlockHeight
        pollingInterval initiallyAborted events).settlement ≠ some .resolvedOk ∧
      (∀ (h : Nat) (rest : List BlockHeightPollEvent), lastValidBlockHeight < h →
        blockHeightPollLoop commitment lastValidBlockHeight pollingInterval
            (.epochInfoResponse h :: rest) =
          { settlement := some (.blockHeightExceeded h lastValidBlockHeight)
            epochInfoRequests := [commitment]
            sleepDurations := []
            handleAbortListenerRegistered := false
            internalControllerLive := false
            raceAbortListenersRemaining := 0 }) ∧
      (∀ (hs : List Nat) (h : Nat), (∀ x ∈ hs, x ≤ lastValidBlockHeight) →
        lastValidBlockHeight < h →
        blockHeightPollLoop commitment lastValidBlockHeight pollingInterval
            (hs.map .epochInfoResponse ++ [.epochInfoResponse h]) =
          { settlement := some (.blockHeightExceeded h lastValidBlockHeight)
            epochInfoRequests := List.replicate (hs.length + 1) commitment
            sleepDurations := List.replicate hs.length pollingInterval
            handleAbortListenerRegistered := false
            internalControllerLive := false
            raceAbortListenersRemaining := hs.length }) ∧
      (∀ (s : PollSettlement),
        (∀ h, BlockHeightPollEvent.epochInfoResponse h ∈ events →
          h ≤ lastValidBlockHeight) →
        (getBlockHeightExceedenceByPollingPromise commitment lastValidBlockHeight
          pollingInterval initiallyAborted events).settlement = some s →
        s = .aborted) := by
  refine ⟨?_,
    fun h rest hc =>
      blockHeightPollLoop_exceeded_head commitment lastValidBlockHeight pollingInterval
        h rest hc,
    fun hs h hall hc =>
      blockHeightPollLoop_low_run commitment lastValidBlockHeight pollingInterval
        hs h hall hc,
    ?_⟩
  · cases initiallyAborted
    · simpa [getBlockHeightExceedenceByPollingPromise] using
        blockHeightPollLoop_never_resolves commitment lastValidBlockHeight
          pollingInterval events
    · simp [getBlockHeightExceedenceByPollingPromise]
  · intro s hall hset
    cases initiallyAborted
    · simp only [getBlockHeightExceedenceByPollingPromise, Bool.false_eq_true,
        if_false] at hset
      exact blockHeightPollLoop_all_low commitment lastValidBlockHeight pollingInterval
        events hall s hset
    · simp [getBlockHeightExceedenceByPollingPromise] at hset
      exact hset.symm

/-- C1 witness: the claim instantiated at a ceiling of 100 with a first fetch
of 101 (immediate rejection), a run 99-then-101 (one extra poll), and an
abort-only run. -/
theorem claim_C1_witness :
    (100 < 101 ∧
      blockHeightPollLoop none 100 1000 [.epochInfoResponse 101] =
        { settlement := some (.blockHeightExceeded 101 100)
          epochInfoRequests := [none]
          sleepDurations := []
          handleAbortListenerRegistered := false
          internalControllerLive := false
          raceAbortListenersRemaining := 0 }) ∧
      blockHeightPollLoop none 100 1000
          [.epochInfoResponse 99, .epochInfoResponse 101] =
        { settlement := some (.blockHeightExceeded 101 100)
          epochInfoRequests := List.replicate 2 none
          sleepDurations := List.replicate 1 1000
          handleAbortListenerRegistered := false
          internalControllerLive := false
          raceAbortListenersRemaining := 1 } ∧
      (PollSettlement.aborted = .aborted) := by
  refine ⟨⟨by decide, ?_⟩, ?_, ?_⟩
  · have := (claim_C1_blockHeight_polling none 100 1000 false []).2.1 101 [] (by decide)
    simpa using this
  · have := (claim_C1_blockHeight_polling none 100 1000 false []).2.2.1 [99] 101
      (by decide) (by decide)
    simpa using this
  · exact (claim_C1_blockHeight_polling none 100 1000 false [.abortFires]).2.2.2
      PollSettlement.aborted (by intro h hm; simp at hm) rfl

/-- C2: each iteration of the recent-signature-confirmation polling loop
fetches the status of exactly the one polled signature; a fetched status
carrying a transaction-level error makes the promise reject immediately with
the structured error translated from it, with no further polling; a fetched
status whose confirmation status compares at least as strong as the requested
commitment (ordering processed < confirmed < finalized, via
commitmentComparator) makes the promise resolve; and a null status causes one
sleep of the polling interval followed by another fetch rather than a
rejection. -/
theorem claim_C2_signature_polling (commitment : Commitment) (signature : String)
    (pollingInterval : Nat) :
    (∀ (events : List SignaturePollEvent),
        ∀ r ∈ (getRecentSignatureConfirmationByPollingPromise commitment signature
          pollingInterval events).signatureStatusRequests, r = [signature]) ∧
      (∀ (st : SignatureStatus) (e : TransactionError) (rest : List SignaturePollEvent),
        st.err = some e →
        getRecentSignatureConfirmationByPollingPromise commitment signature
            pollingInterval (.statusResponse (some st) :: rest) =
          { settlement := some (.transactionFailed (getSolanaErrorFromTransactionError e))
            signatureStatusRequests := [[signature]]
            sleepDurations := []
            handleAbortListenerRegistered := false
            internalControllerLive := false
            raceAbortListenersRemaining := 0 }) ∧
      (∀ (st : SignatureStatus) (cs : Commitment) (rest : List SignaturePollEvent),
        st.err = none → st.confirmationStatus = some cs →
        commitmentComparator cs commitment ≥ 0 →
        getRecentSignatureConfirmationByPollingPromise commitment signature
            pollingInterval (.statusResponse (some st) :: rest) =
          { settlement := some .resolvedOk
            signatureStatusRequests := [[signature]]
            sleepDurations := []
            handleAbortListenerRegistered := false
            internalControllerLive := false
            raceAbortListenersRemaining := 0 }) ∧
      (∀ (rest : List SignaturePollEvent),
        getRecentSignatureConfirmationByPollingPromise commitment signature
            pollingInterval (.statusResponse none :: rest) =
          { settlement := (getRecentSignatureConfirmationByPollingPromise commitment
              signature pollingInterval rest).settlement
            signatureStatusRequests := [signature] ::
              (getRecentSignatureConfirmationByPollingPromise commitment signature
                pollingInterval rest).signatureStatusRequests
            sleepDurations := pollingInterval ::
              (getRecentSignatureConfirmationByPollingPromise commitment signature
                pollingInterval rest).sleepDurations
            handleAbortListenerRegistered :=
              (getRecentSignatureConfirmationByPollingPromise commitment signature
                pollingInterval rest).handleAbortListenerRegistered
            internalControllerLive :=
              (getRecentSignatureConfirmationByPollingPromise commitment signature
                pollingInterval rest).internalControllerLive
            raceAbortListenersRemaining :=
              (getRecentSignatureConfirmationByPollingPromise commitment signature
                pollingInterval rest).raceAbortListenersRemaining + 1 }) := by
  refine ⟨sigPoll_requests_all commitment signature pollingInterval, ?_, ?_, fun rest => rfl⟩
  · intro st e rest herr
    rcases st with ⟨err, cs⟩
    simp only at herr
    subst herr
    rfl
  · intro st cs rest herr hcs hcmp
    rcases st with ⟨err, cs2⟩
    simp only at herr hcs
    subst herr
    subst hcs
    simp [getRecentSignatureConfirmationByPollingPromise, hcmp]

/-- C2 witness: the claim instantiated with the confirmed commitment, a
transaction-error status, a finalized status, and a null status. -/
theorem claim_C2_witness :
    (([("sig" : String)] : List String) = ["sig"]) ∧
      getRecentSignatureConfirmationByPollingPromise .confirmed "sig" 1000
          [.statusResponse (some { err := some "oops" })] =
        { settlement := some (.transactionFailed
            (getSolanaErrorFromTransactionError "oops"))
          signatureStatusRequests := [["sig"]]
          sleepDurations := []
          handleAbortListenerRegistered := false
          internalControllerLive := false
          raceAbortListenersRemaining := 0 } ∧
      getRecentSignatureConfirmationByPollingPromise .confirmed "sig" 1000
          [.statusResponse (some { confirmationStatus := some .finalized })] =
        { settlement := some .resolvedOk
          signatureStatusRequests := [["sig"]]
          sleepDurations := []
          handleAbortListenerRegistered := false
          internalControllerLive := false
          raceAbortListenersRemaining := 0 } ∧
      getRecentSignatureConfirmationByPollingPromise .confirmed "sig" 1000
          [.statusResponse none] =
        { settlement := (getRecentSignatureConfirmationByPollingPromise .confirmed "sig"
            1000 []).settlement
          signatureStatusRequests := [["sig"],
            ["sig"]]
          sleepDurations := [1000]
          handleAbortListenerRegistered := true
          internalControllerLive := true
          raceAbortListenersRemaining := 1 } := by
  refine ⟨rfl, ?_, ?_, ?_⟩
  · exact (claim_C2_signature_polling .confirmed "sig" 1000).2.1
      { err := some "oops" } "oops" [] rfl
  · exact (claim_C2_signature_polling .confirmed "sig" 1000).2.2.1
      { confirmationStatus := some .finalized } .finalized [] rfl rfl (by decide)
  · have := (claim_C2_signature_polling .confirmed "sig" 1000).2.2.2 []
    rw [this]
    rfl

/-- C6 counterexample: the original claim also asserts that no abort listener
added by the loop to the caller's signal remains registered after the promise
settles; but each sleep race adds an anonymous abort listener to the caller's
signal that is never removed, so a run that sleeps once before settling
(heights 99 then 101 against ceiling 100) leaves one such listener
registered. -/
theorem claim_C6_counterexample :
    (getBlockHeightExceedenceByPollingPromise none 100 1000 false
        [.epochInfoResponse 99, .epochInfoResponse 101]).settlement =
      some (.blockHeightExceeded 101 100) ∧
      (getBlockHeightExceedenceByPollingPromise none 100 1000 false
        [.epochInfoResponse 99, .epochInfoResponse 101]).raceAbortListenersRemaining =
        1 := ⟨rfl, rfl⟩

/-- C6 (amended): on every settling path of either polling loop — resolution,
expected rejection, or abort — the teardown runs: the handleAbort listener
registered on the caller's signal is no longer registered (its removal is
idempotent: the explicit removal in the finally block and the auto-removal
triggered by aborting the internal controller cannot double-remove), and the
internal abort controller, when one was created, is no longer live.  The
anonymous listeners each sleep race adds to the caller's signal are however
never removed and remain registered after the promise settles. -/
theorem claim_C6_amended :
    (∀ (commitment : Option Commitment) (lastValidBlockHeight pollingInterval : Nat)
        (initiallyAborted : Bool) (events : List BlockHeightPollEvent)
        (s : PollSettlement),
        (getBlockHeightExceedenceByPollingPromise commitment lastValidBlockHeight
          pollingInterval initiallyAborted events).settlement = some s →
        (getBlockHeightExceedenceByPollingPromise commitment lastValidBlockHeight
          pollingInterval initiallyAborted events).handleAbortListenerRegistered = false ∧
          (getBlockHeightExceedenceByPollingPromise commitment lastValidBlockHeight
            pollingInterval initiallyAborted events).internalControllerLive = false) ∧
      (∀ (commitment : Commitment) (signature : String) (pollingInterval : Nat)
        (events : List SignaturePollEvent) (s : PollSettlement),
        (getRecentSignatureConfirmationByPollingPromise commitment signature
          pollingInterval events).settlement = some s →
        (getRecentSignatureConfirmationByPollingPromise commitment signature
          pollingInterval events).handleAbortListenerRegistered = false ∧
          (getRecentSignatureConfirmationByPollingPromise commitment signature
            pollingInterval events).internalControllerLive = false) := by
  constructor
  · intro commitment c pi initiallyAborted events s hs
    cases initiallyAborted
    · simp only [getBlockHeightExceedenceByPollingPromise, Bool.false_eq_true,
        if_false] at hs ⊢
      exact blockHeightPollLoop_teardown commitment c pi events s hs
    · exact ⟨rfl, rfl⟩
  · intro commitment sig pi events s hs
    exact sigPoll_teardown commitment sig pi events s hs

/-- C6 witness: the amended claim applied to an aborted block-height run and a
resolved signature run. -/
theorem claim_C6_witness :
    ((getBlockHeightExceedenceByPollingPromise none 100 1000 false
        [.abortFires]).settlement = some .aborted ∧
      (getBlockHeightExceedenceByPollingPromise none 100 1000 false
        [.abortFires]).handleAbortListenerRegistered = false ∧
      (getBlockHeightExceedenceByPollingPromise none 100 1000 false
        [.abortFires]).internalControllerLive = false) ∧
      ((getRecentSignatureConfirmationByPollingPromise .confirmed "sig" 1000
        [.statusResponse (some { confirmationStatus := some .finalized })]).settlement =
        some .resolvedOk ∧
      (getRecentSignatureConfirmationByPollingPromise .confirmed "sig" 1000
        [.statusResponse (some { confirmationStatus := some .finalized })]
        ).handleAbortListenerRegistered = false ∧
      (getRecentSignatureConfirmationByPollingPromise .confirmed "sig" 1000
        [.statusResponse (some { confirmationStatus := some .finalized })]
        ).internalControllerLive = false) := by
  constructor
  · refine ⟨rfl, ?_⟩
    exact claim_C6_amended.1 none 100 1000 false [.abortFires] .aborted rfl
  · refine ⟨rfl, ?_⟩
    exact claim_C6_amended.2 .confirmed "sig" 1000
      [.statusResponse (some { confirmationStatus := some .finalized })] .resolvedOk rfl

end SolanaWeb3
